import Mathlib

/-!
Verification development for the Granville trading-signal repository.

The embedding models the pandas series of the source as functions
`Nat → Rat` (raw data columns, which never hold NaN) and
`Nat → Option Rat` (derived rolling columns, where `none` models NaN).
Comparisons against `none` are `false`, matching pandas semantics of
comparisons with NaN.
-/

namespace Granville

/-- Optional rational, modelling a pandas cell that may be NaN. -/
abbrev OptQ := Option ℚ

/-- Comparison `a > b` where `a` is raw and `b` may be NaN. -/
def gtOpt (a : ℚ) (b : OptQ) : Bool :=
  match b with
  | some v => decide (a > v)
  | none => false

/-- Comparison `a < b` where `b` may be NaN. -/
def ltOpt (a : ℚ) (b : OptQ) : Bool :=
  match b with
  | some v => decide (a < v)
  | none => false

/-- Comparison `a ≤ b` where `b` may be NaN. -/
def leOpt (a : ℚ) (b : OptQ) : Bool :=
  match b with
  | some v => decide (a ≤ v)
  | none => false

/-- Comparison `a ≥ b` where `b` may be NaN. -/
def geOpt (a : ℚ) (b : OptQ) : Bool :=
  match b with
  | some v => decide (a ≥ v)
  | none => false

/-- Equality test of a raw value against a possibly-NaN value. -/
def eqOpt (a : ℚ) (b : OptQ) : Bool :=
  match b with
  | some v => decide (a = v)
  | none => false

/-!
Rule detectors, translated from `granville_toolkit/utils.py`.
A detector consumes the price series (raw), the moving-average series
(rolling, hence possibly NaN at the head) and volume data.
-/

/-- Backward difference `ma[i] - ma[i-w]` of the MA series; `none` when the
lookback is unavailable (models `Series.diff(w)`). -/
def maDiff (ma : ℕ → OptQ) (w : ℕ) (i : ℕ) : OptQ :=
  if i < w then none
  else
    match ma i, ma (i - w) with
    | some a, some b => some (a - b)
    | _, _ => none

/-- Translation of `calculate_ma_trend`: 1 when the w-bar MA slope exceeds
0.001, -1 when it is below -0.001, else 0 (NaN slope keeps the default 0). -/
def calculateMaTrend (ma : ℕ → OptQ) (w : ℕ) (i : ℕ) : ℤ :=
  match maDiff ma w i with
  | some s => if s > 1/1000 then 1 else if s < -(1/1000) then -1 else 0
  | none => 0

/-- Translation of the `far_above_ma` half of `is_price_diverged`. -/
def farAboveMa (price : ℕ → ℚ) (ma : ℕ → OptQ) (θ : ℚ) (i : ℕ) : Bool :=
  match ma i with
  | some m => decide ((price i - m) / m * 100 > θ)
  | none => false

/-- Translation of the `far_below_ma` half of `is_price_diverged`. -/
def farBelowMa (price : ℕ → ℚ) (ma : ℕ → OptQ) (θ : ℚ) (i : ℕ) : Bool :=
  match ma i with
  | some m => decide ((price i - m) / m * 100 < -θ)
  | none => false

/-- Rolling maximum of a raw series over a trailing window of w bars;
`none` for the first w-1 positions (models `Series.rolling(w).max()`). -/
def rollingMax (f : ℕ → ℚ) (w : ℕ) (i : ℕ) : OptQ :=
  if i + 1 < w then none
  else some (((List.range w).map (fun k => f (i - k))).foldr max (f i))

/-- Rolling minimum of a raw series over a trailing window of w bars. -/
def rollingMin (f : ℕ → ℚ) (w : ℕ) (i : ℕ) : OptQ :=
  if i + 1 < w then none
  else some (((List.range w).map (fun k => f (i - k))).foldr min (f i))

/-- Translation of the `new_highs` half of `detect_new_highs_lows`. -/
def newHighs (price : ℕ → ℚ) (w : ℕ) (i : ℕ) : Bool :=
  eqOpt (price i) (rollingMax price w i) && eqOpt (price i) (rollingMax price 2 i)

/-- Translation of the `new_lows` half of `detect_new_highs_lows`. -/
def newLows (price : ℕ → ℚ) (w : ℕ) (i : ℕ) : Bool :=
  eqOpt (price i) (rollingMin price w i) && eqOpt (price i) (rollingMin price 2 i)

/-- Translation of `detect_volume_contraction` with its default 0.8 ratio. -/
def volumeContraction (volume : ℕ → ℚ) (volMa : ℕ → OptQ) (i : ℕ) : Bool :=
  match volMa i with
  | some v => decide (volume i / v < 4/5)
  | none => false

/-- Translation of the `cross_above` half of `detect_price_crossover`:
price above MA today and at-or-below MA yesterday (index 0 has no
yesterday, so the shifted comparison is false there, as with NaN). -/
def crossAbove (price : ℕ → ℚ) (ma : ℕ → OptQ) (i : ℕ) : Bool :=
  gtOpt (price i) (ma i) &&
    (if i = 0 then false else leOpt (price (i - 1)) (ma (i - 1)))

/-- Translation of the `cross_below` half of `detect_price_crossover`. -/
def crossBelow (price : ℕ → ℚ) (ma : ℕ → OptQ) (i : ℕ) : Bool :=
  ltOpt (price i) (ma i) &&
    (if i = 0 then false else geOpt (price (i - 1)) (ma (i - 1)))

/-- Translation of the `support_test` half of `detect_support_resistance_test`. -/
def supportTest (price : ℕ → ℚ) (ma : ℕ → OptQ) (tol : ℚ) (i : ℕ) : Bool :=
  match ma i with
  | some m => decide (|(price i - m) / m * 100| ≤ tol ∧ price i ≤ m)
  | none => false

/-- Translation of the `resistance_test` half of `detect_support_resistance_test`. -/
def resistanceTest (price : ℕ → ℚ) (ma : ℕ → OptQ) (tol : ℚ) (i : ℕ) : Bool :=
  match ma i with
  | some m => decide (|(price i - m) / m * 100| ≤ tol ∧ price i ≥ m)
  | none => false

/-!
Translation of `granville_toolkit/granville_rules.py`.
`RuleInput` bundles the data columns handed to `granville_eight_rules`
together with its tunable parameters (source defaults recorded).
-/

/-- Inputs of `granville_eight_rules`: price/volume data columns (raw) and
the MA / volume-MA columns (rolling, possibly NaN at the head). -/
structure RuleInput where
  price : ℕ → ℚ
  volume : ℕ → ℚ
  ma : ℕ → OptQ
  volMa : ℕ → OptQ
  divergenceThreshold : ℚ := 3
  trendWindow : ℕ := 5
  supportTolerance : ℚ := 1/2

/-- Condition of `_apply_rule_1`: cross above MA while MA trend ≥ 0. -/
def rule1Cond (ps : RuleInput) (i : ℕ) : Bool :=
  crossAbove ps.price ps.ma i &&
    decide (calculateMaTrend ps.ma ps.trendWindow i ≥ 0)

/-- Condition of `_apply_rule_2`: price above MA, new high, MA trend > 0. -/
def rule2Cond (ps : RuleInput) (i : ℕ) : Bool :=
  gtOpt (ps.price i) (ps.ma i) && newHighs ps.price 10 i &&
    decide (calculateMaTrend ps.ma ps.trendWindow i > 0)

/-- Condition of `_apply_rule_3`: was far above MA within the last 1-3 bars,
now testing MA support, MA trend > 0 (shifted values past the head are
`fillna(False)`). -/
def rule3Cond (ps : RuleInput) (i : ℕ) : Bool :=
  ((if i < 3 then false else farAboveMa ps.price ps.ma ps.divergenceThreshold (i - 3)) ||
   (if i < 2 then false else farAboveMa ps.price ps.ma ps.divergenceThreshold (i - 2)) ||
   (if i < 1 then false else farAboveMa ps.price ps.ma ps.divergenceThreshold (i - 1))) &&
  supportTest ps.price ps.ma ps.supportTolerance i &&
    decide (calculateMaTrend ps.ma ps.trendWindow i > 0)

/-- Condition of `_apply_rule_4`: far below MA, volume contraction, no new
lows, MA trend ≥ -0.5 (so no longer strongly declining). -/
def rule4Cond (ps : RuleInput) (i : ℕ) : Bool :=
  farBelowMa ps.price ps.ma ps.divergenceThreshold i &&
  volumeContraction ps.volume ps.volMa i &&
  !newLows ps.price 10 i &&
    decide ((calculateMaTrend ps.ma ps.trendWindow i : ℚ) ≥ -(1/2))

/-- Condition of `_apply_rule_5`: cross below MA while MA trend ≤ 0. -/
def rule5Cond (ps : RuleInput) (i : ℕ) : Bool :=
  crossBelow ps.price ps.ma i &&
    decide (calculateMaTrend ps.ma ps.trendWindow i ≤ 0)

/-- Condition of `_apply_rule_6`: price below MA, new low, MA trend < 0. -/
def rule6Cond (ps : RuleInput) (i : ℕ) : Bool :=
  ltOpt (ps.price i) (ps.ma i) && newLows ps.price 10 i &&
    decide (calculateMaTrend ps.ma ps.trendWindow i < 0)

/-- Condition of `_apply_rule_7`: was far below MA within the last 1-3 bars,
now testing MA resistance, MA trend < 0. -/
def rule7Cond (ps : RuleInput) (i : ℕ) : Bool :=
  ((if i < 3 then false else farBelowMa ps.price ps.ma ps.divergenceThreshold (i - 3)) ||
   (if i < 2 then false else farBelowMa ps.price ps.ma ps.divergenceThreshold (i - 2)) ||
   (if i < 1 then false else farBelowMa ps.price ps.ma ps.divergenceThreshold (i - 1))) &&
  resistanceTest ps.price ps.ma ps.supportTolerance i &&
    decide (calculateMaTrend ps.ma ps.trendWindow i < 0)

/-- Condition of `_apply_rule_8`: far above MA, volume contraction, no new
highs, MA trend ≤ 0.5 (so no longer strongly rising). -/
def rule8Cond (ps : RuleInput) (i : ℕ) : Bool :=
  farAboveMa ps.price ps.ma ps.divergenceThreshold i &&
  volumeContraction ps.volume ps.volMa i &&
  !newHighs ps.price 10 i &&
    decide ((calculateMaTrend ps.ma ps.trendWindow i : ℚ) ≤ 1/2)

/-- Masked assignment `signals.loc[cond & (signals == 0)] = k` shared by all
eight `_apply_rule_k` helpers. -/
def applyRule (k : ℕ) (cond : ℕ → Bool) (signals : ℕ → ℕ) : ℕ → ℕ :=
  fun i => if cond i && decide (signals i = 0) then k else signals i

/-- Translation of `granville_eight_rules`: start from the all-zero signal
column and apply the eight masked assignments in source order 1..8. -/
def granvilleSignals (ps : RuleInput) : ℕ → ℕ :=
  applyRule 8 (rule8Cond ps) <|
  applyRule 7 (rule7Cond ps) <|
  applyRule 6 (rule6Cond ps) <|
  applyRule 5 (rule5Cond ps) <|
  applyRule 4 (rule4Cond ps) <|
  applyRule 3 (rule3Cond ps) <|
  applyRule 2 (rule2Cond ps) <|
  applyRule 1 (rule1Cond ps) (fun _ => 0)

/-- Condition of rule k at bar i, indexed form used to state priority. -/
def ruleCond (ps : RuleInput) (k : ℕ) (i : ℕ) : Bool :=
  match k with
  | 1 => rule1Cond ps i
  | 2 => rule2Cond ps i
  | 3 => rule3Cond ps i
  | 4 => rule4Cond ps i
  | 5 => rule5Cond ps i
  | 6 => rule6Cond ps i
  | 7 => rule7Cond ps i
  | 8 => rule8Cond ps i
  | _ => false

/-- Spec-side selection: evaluate the rules in numeric order 1 through 8 and
return the first whose condition holds, else 0 (first-match-wins, as the
specification words it). -/
def ruleFirstMatch (ps : RuleInput) (i : ℕ) : ℕ :=
  if rule1Cond ps i then 1
  else if rule2Cond ps i then 2
  else if rule3Cond ps i then 3
  else if rule4Cond ps i then 4
  else if rule5Cond ps i then 5
  else if rule6Cond ps i then 6
  else if rule7Cond ps i then 7
  else if rule8Cond ps i then 8
  else 0

/-- Sequential application of a list of masked rule assignments. -/
def chainApply : List (ℕ × (ℕ → Bool)) → (ℕ → ℕ) → (ℕ → ℕ)
  | [], s => s
  | (k, c) :: rest, s => chainApply rest (applyRule k c s)

/-- First-match selection over a list of rules. -/
def firstMatchList : List (ℕ × (ℕ → Bool)) → ℕ → ℕ
  | [], _ => 0
  | (k, c) :: rest, i => if c i then k else firstMatchList rest i

end Granville

namespace Backtest

/-!
Translation of `backtest/backtest.py`, function
`backtest_single_stock_enhanced`. Prices are rationals (the float values
of the source); `round(x, 2)` of Python is round-half-to-even at two
decimals and is applied exactly where the source applies it, namely when a
trade record is assembled. The input rows carry the three signal columns
the function reads. The source sorts the DataFrame by index first; the
embedding receives the rows already in index order.
-/

/-- Python `round` to an integer: round half to even. -/
def roundHalfEven (q : ℚ) : ℤ :=
  if Int.fract q < 1/2 then ⌊q⌋
  else if 1/2 < Int.fract q then ⌊q⌋ + 1
  else if 2 ∣ ⌊q⌋ then ⌊q⌋ else ⌊q⌋ + 1

/-- Python `round(q, 2)`. -/
def round2 (q : ℚ) : ℚ := (roundHalfEven (q * 100) : ℚ) / 100

/-- One row of the backtest input frame: close, high and the three
pre-computed signal columns read by the simulator. `date` stands for the
row's date (the source formats it into a string for the ledger). -/
structure BarRow where
  date : ℕ
  close : ℚ
  high : ℚ
  gran : ℤ
  cross : ℤ
  brk : ℤ
deriving DecidableEq

/-- Trade side of a ledger record. -/
inductive TradeAction where
  | buy : TradeAction
  | sell : TradeAction
deriving DecidableEq

/-- One ledger record, with the fields the source writes (in source order:
date, type, price, shares, amount, remaining cash, profit, total capital,
rule label); monetary fields already carry the `round(x, 2)` the source
applies when building the record. -/
structure TradeRecord where
  date : ℕ
  action : TradeAction
  price : ℚ
  shares : ℤ
  amount : ℚ
  cashAfter : ℚ
  profit : ℚ
  totalAfter : ℚ
  label : String
deriving DecidableEq

/-- Mutable simulator state: cash, shares held and the last entry price. -/
structure BTState where
  cash : ℚ
  shares : ℤ
  entry : ℚ
deriving DecidableEq

/-- Initial state of a run with the given capital. -/
def initState (cap : ℚ) : BTState := { cash := cap, shares := 0, entry := 0 }

/-- Chinese rule descriptions from `get_rule_descriptions`, used as ledger
labels (`rule_descriptions.get(gran, "")`). -/
def ruleDescription : ℤ → String
  | 1 => "價格跌破均線後首次回升至均線之上（均線走平或轉折向上）- 買進"
  | 2 => "價格在均線之上回檔，接近均線未跌破又再度上升（均線持續向上）- 買進"
  | 3 => "價格遠離均線後回檔至均線獲支撐後反彈（均線持續向上）- 買進"
  | 4 => "價格跌破均線且大幅偏離後出現明顯止跌或反轉，並有量縮跡象（均線由下彎轉平）- 買進"
  | 5 => "價格突破均線後首次跌破均線（均線走平或轉折向下）- 賣出"
  | 6 => "價格在均線之下反彈未突破均線即再度下跌（均線持續下彎）- 賣出"
  | 7 => "價格遠離均線後回彈至均線附近遇壓力再下跌（均線持續下彎）- 賣出"
  | 8 => "價格突破均線後大幅偏離，然後出現明顯見頂（量縮/價跌），均線由上升轉平甚至下彎 - 賣出"
  | _ => ""

/-- Sell-trigger cascade of the holding branch, in source order: take-profit
first, then Granville sell rules 5-8 at close, then death cross, then
breakout down; `none` when no trigger fires. -/
def sellDecision (tp : ℚ) (s : BTState) (b : BarRow) : Option (ℚ × String) :=
  if b.high ≥ s.entry * (1 + tp) then some (s.entry * (1 + tp), "停利 - 賣出")
  else if b.gran = 5 ∨ b.gran = 6 ∨ b.gran = 7 ∨ b.gran = 8 then
    some (b.close, ruleDescription b.gran)
  else if b.cross = -1 then some (b.close, "死亡交叉 - 賣出")
  else if b.brk = -1 then some (b.close, "跌破均線 - 賣出")
  else none

/-- Holding branch (`if shares > 0`) of the per-bar loop: execute the first
matching sell trigger at its price, append the SELL record, zero the
shares. -/
def sellPhase (tp : ℚ) (s : BTState) (b : BarRow) : BTState × List TradeRecord :=
  if s.shares > 0 then
    match sellDecision tp s b with
    | some pl =>
        let txn := pl.1 * (s.shares : ℚ)
        let profit := (pl.1 - s.entry) * (s.shares : ℚ)
        let cash := s.cash + txn
        ({ cash := cash, shares := 0, entry := s.entry },
         [{ date := b.date, action := .sell, price := round2 pl.1, shares := s.shares,
            amount := round2 txn, cashAfter := round2 cash, profit := round2 profit,
            totalAfter := round2 cash, label := pl.2 }])
    | none => (s, [])
  else (s, [])

/-- Flat branch (`if shares == 0`) of the per-bar loop: buy at close when a
Granville buy rule fired together with a golden cross or breakout up. The
source assigns `shares = floor(cash / buy_price)` before checking that it
is positive, and keeps that assignment either way. -/
def buyPhase (s : BTState) (b : BarRow) : BTState × List TradeRecord :=
  if s.shares = 0 then
    if (b.gran = 1 ∨ b.gran = 2 ∨ b.gran = 3 ∨ b.gran = 4) ∧ (b.cross = 1 ∨ b.brk = 1) then
      let buyPrice := b.close
      let shares := ⌊s.cash / buyPrice⌋
      if shares > 0 then
        let txn := buyPrice * (shares : ℚ)
        let cash := s.cash - txn
        let total := cash + (shares : ℚ) * b.close
        ({ cash := cash, shares := shares, entry := buyPrice },
         [{ date := b.date, action := .buy, price := round2 buyPrice, shares := shares,
            amount := round2 txn, cashAfter := round2 cash, profit := 0,
            totalAfter := round2 total, label := ruleDescription b.gran }])
      else ({ cash := s.cash, shares := shares, entry := s.entry }, [])
    else (s, [])
  else (s, [])

/-- One iteration of the per-bar loop: holding branch first, then the flat
branch (which can fire on the same bar right after a sell). -/
def stepBar (tp : ℚ) (s : BTState) (b : BarRow) : BTState × List TradeRecord :=
  let p1 := sellPhase tp s b
  let p2 := buyPhase p1.1 b
  (p2.1, p1.2 ++ p2.2)

/-- The whole per-bar loop over the row list, accumulating ledger records. -/
def runBars (tp : ℚ) : BTState → List BarRow → BTState × List TradeRecord
  | s, [] => (s, [])
  | s, b :: rest =>
      let p1 := stepBar tp s b
      let p2 := runBars tp p1.1 rest
      (p2.1, p1.2 ++ p2.2)

/-- State after each processed bar (one entry per input row). -/
def stateTrace (tp : ℚ) (s : BTState) : List BarRow → List BTState
  | [] => []
  | b :: rest => (stepBar tp s b).1 :: stateTrace tp (stepBar tp s b).1 rest

/-- Default row used for the `getLastD` fallback (the source instead
raises on an empty frame when reading the last close). -/
def defaultRow : BarRow := { date := 0, close := 0, high := 0, gran := 0, cross := 0, brk := 0 }

/-- End-of-series block: while still holding after the last bar, force-sell
everything at the final close; the label is the Granville description when
the last bar carries a sell rule, otherwise the forced-liquidation label. -/
def finalLiquidation (s : BTState) (bars : List BarRow) (recs : List TradeRecord) :
    BTState × List TradeRecord :=
  if s.shares > 0 then
    let lastRow := bars.getLastD defaultRow
    let sellPrice := lastRow.close
    let txn := sellPrice * (s.shares : ℚ)
    let profit := (sellPrice - s.entry) * (s.shares : ℚ)
    let cash := s.cash + txn
    let lastGran := lastRow.gran
    let label :=
      if lastGran = 5 ∨ lastGran = 6 ∨ lastGran = 7 ∨ lastGran = 8 then
        ruleDescription lastGran
      else "收盤強制 - 賣出"
    ({ cash := cash, shares := 0, entry := s.entry },
     recs ++ [{ date := lastRow.date, action := .sell, price := round2 sellPrice,
                shares := s.shares, amount := round2 txn, cashAfter := round2 cash,
                profit := round2 profit, totalAfter := round2 cash, label := label }])
  else (s, recs)

/-- SELL rows of the ledger (`trades_df[交易類型 == 賣出]`). -/
def sellRecords (l : List TradeRecord) : List TradeRecord :=
  l.filter (fun r => r.action = TradeAction.sell)

/-- Per-trade return ratio the source derives from the ledger columns:
profit over the reconstructed cost basis `amount - profit`. -/
def returnRatio (r : TradeRecord) : ℚ := r.profit / (r.amount - r.profit)

/-- Return-ratio column over the SELL rows. -/
def returnRatios (l : List TradeRecord) : List ℚ := (sellRecords l).map returnRatio

/-- Arithmetic mean (`Series.mean`). -/
def sampleMean (xs : List ℚ) : ℚ := xs.sum / (xs.length : ℚ)

/-- Sample variance with one delta degree of freedom, the square of
pandas `Series.std()`. -/
def sampleVar (xs : List ℚ) : ℚ :=
  ((xs.map (fun x => (x - sampleMean xs) ^ 2)).sum) / ((xs.length : ℚ) - 1)

/-- Pandas `Series.std()`: square root of the sample variance. -/
noncomputable def sampleStd (xs : List ℚ) : ℝ := Real.sqrt (sampleVar xs)

/-- Sharpe-like ratio of the source: `mean/std*sqrt(n)` over the per-trade
return ratios when there are more than one and the std is nonzero, else 0. -/
noncomputable def sharpeRatioOf (l : List TradeRecord) : ℝ :=
  let rets := returnRatios l
  if 1 < rets.length ∧ sampleStd rets ≠ 0 then
    ((sampleMean rets : ℚ) : ℝ) / sampleStd rets * Real.sqrt (rets.length : ℝ)
  else 0

/-- Summary of a run: final capital, final position and the rational
performance statistics reduced from the ledger. The count-normalized
Sharpe-like ratio of the ledger is `sharpeRatioOf` applied to `ledger`. -/
structure BTSummary where
  initialCapital : ℚ
  finalValue : ℚ
  returnPct : ℚ
  finalShares : ℤ
  lastClose : ℚ
  ledger : List TradeRecord
  totalReturn : ℚ
  winRate : ℚ
  totalTrades : ℕ
deriving DecidableEq

/-- Translation of `backtest_single_stock_enhanced`: run the per-bar loop
from the initial state, apply the end-of-series liquidation and reduce the
ledger to performance statistics. -/
def backtestSingleStockEnhanced (bars : List BarRow) (tp : ℚ) (cap : ℚ) : BTSummary :=
  let lastClose := (bars.getLastD defaultRow).close
  let run := runBars tp (initState cap) bars
  let fin := finalLiquidation run.1 bars run.2
  let finalValue := fin.1.cash
  let totalReturn := (finalValue - cap) / cap
  let sells := sellRecords fin.2
  let totalTrades := sells.length
  let wins := (sells.filter (fun r => r.profit > 0)).length
  let winRate := if totalTrades > 0 then (wins : ℚ) / (totalTrades : ℚ) else 0
  { initialCapital := cap, finalValue := finalValue, returnPct := totalReturn * 100,
    finalShares := fin.1.shares, lastClose := lastClose, ledger := fin.2,
    totalReturn := totalReturn, winRate := winRate, totalTrades := totalTrades }

/-- Well-formed simulator state: nonnegative cash and shares, and a
positive entry price while holding. -/
def GoodState (s : BTState) : Prop :=
  0 ≤ s.cash ∧ 0 ≤ s.shares ∧ (0 < s.shares → 0 < s.entry)

/-- Spec-side wording of the per-trade return ratio: profit over the
reconstructed cost basis, `profit / (trade_value - profit)`. -/
def specReturnRatio (profit value : ℚ) : ℚ := profit / (value - profit)

/-- Spec-side wording of the Sharpe-like ratio:
`mean(return_ratio) / stddev(return_ratio) * sqrt(n)` when `n > 1` and the
standard deviation is nonzero, else 0.0. -/
noncomputable def specSharpeRatio (rets : List ℚ) : ℝ :=
  if 1 < rets.length ∧ sampleVar rets ≠ 0 then
    ((sampleMean rets : ℚ) : ℝ) / Real.sqrt ((sampleVar rets : ℚ) : ℝ) *
      Real.sqrt (rets.length : ℝ)
  else 0

end Backtest

namespace SignalProcessor

open Granville

/-!
Translation of `core/signal_processor.py`: indicator calculation, the
Granville-rule signal extraction, confidence scoring, signal filtering and
the `generate_signals` entry point. Timestamps are rationals counted in
minutes, so that the `total_seconds()/60` distance of the source is the
plain absolute difference.
-/

/-- One input bar with the columns this module reads. -/
structure Bar where
  date : ℚ
  close : ℚ
  volume : ℚ
deriving DecidableEq

/-- Close column as a series. -/
def closeSeries (bars : List Bar) : ℕ → ℚ :=
  fun i => ((bars.getD i { date := 0, close := 0, volume := 0 }).close)

/-- Volume column as a series. -/
def volumeSeries (bars : List Bar) : ℕ → ℚ :=
  fun i => ((bars.getD i { date := 0, close := 0, volume := 0 }).volume)

/-- Date column as a series. -/
def dateSeries (bars : List Bar) : ℕ → ℚ :=
  fun i => ((bars.getD i { date := 0, close := 0, volume := 0 }).date)

/-- Rolling mean over a trailing window (`Series.rolling(w).mean()`):
NaN while fewer than w observations are available. -/
def rollingMean (f : ℕ → ℚ) (w : ℕ) (i : ℕ) : OptQ :=
  if i + 1 < w then none
  else some ((((List.range w).map (fun k => f (i - k))).sum) / (w : ℚ))

/-- Percent change over a lag of k bars (`Series.pct_change(k)`). -/
def pctChange (f : ℕ → ℚ) (k : ℕ) (i : ℕ) : OptQ :=
  if i < k then none else some (f i / f (i - k) - 1)

/-- Division of a raw column by a rolling column, NaN-propagating. -/
def ratioOpt (a : ℕ → ℚ) (b : ℕ → OptQ) (i : ℕ) : OptQ :=
  (b i).map (fun v => a i / v)

/-- Errors of the module. The source raises `SignalProcessingError` with a
distinct message per situation; the constructors mirror the messages
`Input DataFrame is empty`, `Insufficient data: need at least N rows` and
the `Signal generation failed: ...` wrapper of `generate_signals`. -/
inductive SigErr where
  | emptyInput : SigErr
  | insufficientData (needed : ℕ) : SigErr
  | generationFailed (inner : SigErr) : SigErr
deriving DecidableEq

/-- Output frame of `calculate_indicators`: the bars plus the derived
indicator columns. -/
structure IndicatorFrame where
  bars : List Bar
  ma : ℕ → OptQ
  volAvg : ℕ → OptQ
  maSlope : ℕ → OptQ
  priceMaRatio : ℕ → OptQ
  volumeRatio : ℕ → OptQ
  priceChange : ℕ → OptQ
  priceChange3d : ℕ → OptQ

/-- Translation of `_calculate_ma_slope`: `ma.diff(3) / 3`. -/
def maSlopeSeries (ma : ℕ → OptQ) (i : ℕ) : OptQ :=
  (maDiff ma 3 i).map (fun d => d / 3)

/-- Translation of `calculate_indicators`: reject empty input, then input
shorter than `max(ma_window, vol_window)`, then attach the rolling MA,
rolling volume average, MA slope, price/MA ratio, volume ratio and the
1-bar and 3-bar percent changes. -/
def calculateIndicators (bars : List Bar) (maWindow volWindow : ℕ) :
    Except SigErr IndicatorFrame :=
  if bars = [] then .error .emptyInput
  else if bars.length < max maWindow volWindow then
    .error (.insufficientData (max maWindow volWindow))
  else
    let close := closeSeries bars
    let volume := volumeSeries bars
    let ma := rollingMean close maWindow
    let volAvg := rollingMean volume volWindow
    .ok { bars := bars, ma := ma, volAvg := volAvg,
          maSlope := maSlopeSeries ma,
          priceMaRatio := fun i => (ma i).map (fun m => close i / m),
          volumeRatio := ratioOpt volume volAvg,
          priceChange := pctChange close 1,
          priceChange3d := pctChange close 3 }

/-- Configuration record of the module, source defaults recorded. -/
structure SignalConfig where
  maPeriod : ℕ := 20
  volumePeriod : ℕ := 5
  divergenceThreshold : ℚ := 3
  enableSignalFilter : Bool := true
deriving DecidableEq

/-- Signal record of the module. -/
structure Signal where
  stockCode : String
  ruleNumber : ℕ
  signalType : String
  timestamp : ℚ
  price : ℚ
  confidence : ℚ
deriving DecidableEq

/-- Translation of `_calculate_signal_confidence`: base 0.6; volume factor
0.2 above ratio 1.5 and 0.1 above 1.2; trend factor `min(0.2, |slope|*10)`;
momentum factor `min(0.1, |price_change_3d|*5)`; clamp into `[0, 1]`.
A NaN indicator (or an out-of-range position) contributes nothing; the
`rule_number` argument is accepted and unused, as in the source. -/
def calculateSignalConfidence (f : IndicatorFrame) (ruleNumber : ℕ) (position : ℕ) : ℚ :=
  let volFactor :=
    if position < f.bars.length then
      match f.volumeRatio position with
      | some v => if v > 3/2 then 1/5 else if v > 6/5 then 1/10 else 0
      | none => 0
    else 0
  let trendFactor :=
    if position < f.bars.length then
      match f.maSlope position with
      | some m => min (1/5) (|m| * 10)
      | none => 0
    else 0
  let momentumFactor :=
    if position < f.bars.length then
      match f.priceChange3d position with
      | some p => min (1/10) (|p| * 5)
      | none => 0
    else 0
  max 0 (min 1 (3/5 + volFactor + trendFactor + momentumFactor))

/-- Spec-side wording of the confidence score for a fired rule: base 0.6,
plus 0.2 if the volume ratio exceeds 1.5 or 0.1 if it exceeds 1.2, plus
`min(0.2, |ma_slope|*10)`, plus `min(0.1, |price_change_3d|*5)`, clamped
to `[0.0, 1.0]`; a factor whose indicator is missing contributes 0. -/
def specConfidence (volRatio slope change3d : OptQ) : ℚ :=
  let volFactor :=
    match volRatio with
    | some v => if v > 3/2 then 1/5 else if v > 6/5 then 1/10 else 0
    | none => 0
  let trendFactor :=
    match slope with
    | some m => min (1/5) (|m| * 10)
    | none => 0
  let momentumFactor :=
    match change3d with
    | some p => min (1/10) (|p| * 5)
    | none => 0
  min 1 (max 0 (3/5 + volFactor + trendFactor + momentumFactor))

/-- Rule input the pipeline hands to `granville_eight_rules` after aliasing
`ma20 := ma` and `vol_ma5 := vol_avg`. -/
def pipelineRuleInput (f : IndicatorFrame) (cfg : SignalConfig) : RuleInput :=
  { price := closeSeries f.bars, volume := volumeSeries f.bars,
    ma := f.ma, volMa := f.volAvg,
    divergenceThreshold := cfg.divergenceThreshold }

/-- The Signal object built for the fired rule at bar i. -/
def mkLatestSignal (f : IndicatorFrame) (cfg : SignalConfig) (i : ℕ) : Signal :=
  let ruleNum := granvilleSignals (pipelineRuleInput f cfg) i
  { stockCode := "UNKNOWN", ruleNumber := ruleNum,
    signalType := if ruleNum ≤ 4 then "BUY" else "SELL",
    timestamp := dateSeries f.bars i,
    price := closeSeries f.bars i,
    confidence := calculateSignalConfidence f ruleNum i }

/-- Body of the `try` block of `_apply_granville_rules`: run the eight
rules, keep only the most recent bar with a nonzero code and convert it
into a Signal; an empty nonzero set yields no signal. -/
def applyGranvilleRulesBody (f : IndicatorFrame) (cfg : SignalConfig) :
    Except SigErr (List Signal) :=
  let nz := (List.range f.bars.length).filter
    (fun i => granvilleSignals (pipelineRuleInput f cfg) i ≠ 0)
  match nz.getLast? with
  | none => .ok []
  | some i => .ok [mkLatestSignal f cfg i]

/-- Exception handler of `_apply_granville_rules`: any failure of the body
degrades to an empty signal list instead of propagating. -/
def applyGranvilleRulesHandler (r : Except SigErr (List Signal)) : List Signal :=
  match r with
  | .ok s => s
  | .error _ => []

/-- Translation of `_apply_granville_rules`: the body wrapped in its
recovery handler. -/
def applyGranvilleRulesFn (f : IndicatorFrame) (cfg : SignalConfig) : List Signal :=
  applyGranvilleRulesHandler (applyGranvilleRulesBody f cfg)

/-- Duplicate test of `filter_signals`: same stock, same rule, timestamps
closer than the window (in minutes). -/
def signalDup (w : ℚ) (s e : Signal) : Bool :=
  decide (s.stockCode = e.stockCode) && decide (s.ruleNumber = e.ruleNumber) &&
    decide (|s.timestamp - e.timestamp| < w)

/-- Walk of `filter_signals` over the sorted list: keep a signal unless it
duplicates an already accepted one. -/
def filterWalk (w : ℚ) : List Signal → List Signal → List Signal
  | acc, [] => acc
  | acc, s :: rest =>
      if acc.any (signalDup w s) then filterWalk w acc rest
      else filterWalk w (acc ++ [s]) rest

/-- Stable sort of the signals by timestamp (`sorted(signals, key=...)`). -/
def sortSignals (sigs : List Signal) : List Signal :=
  sigs.mergeSort (fun a b => decide (a.timestamp ≤ b.timestamp))

/-- Translation of `filter_signals`: empty input returned as is, otherwise
the deduplicating walk over the timestamp-sorted list. -/
def filterSignals (sigs : List Signal) (w : ℚ) : List Signal :=
  if sigs = [] then sigs else filterWalk w [] (sortSignals sigs)

/-- Translation of `generate_signals`: indicators, rules, then the optional
duplicate filter with its 5-minute window; an error of the indicator stage
is wrapped into the `Signal generation failed` error and propagated. -/
def generateSignals (bars : List Bar) (cfg : SignalConfig) :
    Except SigErr (List Signal) :=
  match calculateIndicators bars cfg.maPeriod cfg.volumePeriod with
  | .error e => .error (.generationFailed e)
  | .ok f =>
      let raw := applyGranvilleRulesFn f cfg
      .ok (if cfg.enableSignalFilter then filterSignals raw 5 else raw)

end SignalProcessor

namespace Granville

/-- When all rule numbers are nonzero, a chain of masked assignments computes
first-match selection on bars whose code is still 0 and leaves claimed bars
untouched. -/
lemma chainApply_eq_firstMatch (l : List (ℕ × (ℕ → Bool))) (s : ℕ → ℕ) (i : ℕ)
    (hk : ∀ p ∈ l, p.1 ≠ 0) :
    chainApply l s i = if s i = 0 then firstMatchList l i else s i := by
  induction l generalizing s with
  | nil =>
      by_cases h : s i = 0 <;> simp [chainApply, firstMatchList, h]
  | cons p rest ih =>
      obtain ⟨k, c⟩ := p
      have hk0 : k ≠ 0 := hk (k, c) (List.mem_cons_self _ _)
      have hrest : ∀ p ∈ rest, p.1 ≠ 0 := fun p hp => hk p (List.mem_cons_of_mem _ hp)
      by_cases hs : s i = 0
      · by_cases hc : c i = true
        · simp [chainApply, firstMatchList, hs, hc,
            ih (applyRule k c s) hrest, applyRule, hk0]
        · simp only [Bool.not_eq_true] at hc
          simp [chainApply, firstMatchList, hs, hc,
            ih (applyRule k c s) hrest, applyRule]
      · have ha : applyRule k c s i = s i := by simp [applyRule, hs]
        simp [chainApply, firstMatchList, hs, ih (applyRule k c s) hrest, ha]

/-- Chain of the eight masked assignments agrees with ordered first-match
selection at every bar. -/
lemma granvilleSignals_eq_firstMatch (ps : RuleInput) (i : ℕ) :
    granvilleSignals ps i = ruleFirstMatch ps i := by
  have h : granvilleSignals ps i =
      chainApply [(1, rule1Cond ps), (2, rule2Cond ps), (3, rule3Cond ps),
        (4, rule4Cond ps), (5, rule5Cond ps), (6, rule6Cond ps),
        (7, rule7Cond ps), (8, rule8Cond ps)] (fun _ => 0) i := rfl
  rw [h, chainApply_eq_firstMatch]
  · simp [firstMatchList, ruleFirstMatch]
  · intro p hp
    fin_cases hp <;> simp

/-- Claim C1: the Rule Classification Engine assigns each bar exactly one
signal code in 0..8; the eight rules are evaluated in numeric order 1
through 8 with first-match-wins (a rule only claims a bar whose code is
still 0), so no bar is ever marked with two different rule numbers, and the
code is 0 exactly when no rule condition holds. -/
theorem granville_assigns_one_code_first_match_wins (ps : RuleInput) (i : ℕ) :
    granvilleSignals ps i = ruleFirstMatch ps i ∧
    granvilleSignals ps i ≤ 8 ∧
    (granvilleSignals ps i = 0 ↔ ∀ k, ruleCond ps k i = false) := by
  refine ⟨granvilleSignals_eq_firstMatch ps i, ?_, ?_⟩
  · rw [granvilleSignals_eq_firstMatch]
    unfold ruleFirstMatch
    split_ifs <;> omega
  · rw [granvilleSignals_eq_firstMatch]
    constructor
    · intro h0 k
      unfold ruleFirstMatch at h0
      split_ifs at h0 with hc1 hc2 hc3 hc4 hc5 hc6 hc7 hc8 <;> try omega
      unfold ruleCond
      split <;> simp_all
    · intro hall
      have e1 : rule1Cond ps i = false := hall 1
      have e2 : rule2Cond ps i = false := hall 2
      have e3 : rule3Cond ps i = false := hall 3
      have e4 : rule4Cond ps i = false := hall 4
      have e5 : rule5Cond ps i = false := hall 5
      have e6 : rule6Cond ps i = false := hall 6
      have e7 : rule7Cond ps i = false := hall 7
      have e8 : rule8Cond ps i = false := hall 8
      simp [ruleFirstMatch, e1, e2, e3, e4, e5, e6, e7, e8]

end Granville

namespace Backtest

/-- Claim C2: while LONG, a bar whose high reaches `entry*(1+take_profit_pct)`
is always exited at exactly that take-profit price, with proceeds
`price*shares` added to cash and profit `(sell_price-entry)*shares`; the
record carries the take-profit label. The rows gran/cross/brk are
universally quantified inside `b`, so the exit happens regardless of any
simultaneous Granville sell rule 5-8, death-cross or breakout-down signal
on the same bar. -/
theorem takeProfit_exit_priority (tp : ℚ) (s : BTState) (b : BarRow)
    (hsh : 0 < s.shares) (hhigh : s.entry * (1 + tp) ≤ b.high) :
    sellPhase tp s b =
      ({ cash := s.cash + s.entry * (1 + tp) * (s.shares : ℚ), shares := 0, entry := s.entry },
       [{ date := b.date, action := .sell, price := round2 (s.entry * (1 + tp)),
          shares := s.shares,
          amount := round2 (s.entry * (1 + tp) * (s.shares : ℚ)),
          cashAfter := round2 (s.cash + s.entry * (1 + tp) * (s.shares : ℚ)),
          profit := round2 ((s.entry * (1 + tp) - s.entry) * (s.shares : ℚ)),
          totalAfter := round2 (s.cash + s.entry * (1 + tp) * (s.shares : ℚ)),
          label := "停利 - 賣出" }]) := by
  unfold sellPhase sellDecision
  rw [if_pos hsh, if_pos (show b.high ≥ s.entry * (1 + tp) from hhigh)]

/-- Witness for the take-profit theorem: entry 100, take-profit 10%, a bar
with high 115 and a simultaneous rule-5 / death-cross / breakout-down sell
signal still exits at exactly 110 with profit 10 per share. -/
theorem takeProfit_exit_priority_witness :
    0 < (BTState.mk 1000 10 100).shares ∧
    (BTState.mk 1000 10 100).entry * (1 + 1/10) ≤ (BarRow.mk 0 108 115 5 (-1) (-1)).high ∧
    sellPhase (1/10) (BTState.mk 1000 10 100) (BarRow.mk 0 108 115 5 (-1) (-1)) =
      ({ cash := 2100, shares := 0, entry := 100 },
       [{ date := 0, action := .sell, price := 110, shares := 10, amount := 1100,
          cashAfter := 2100, profit := 100, totalAfter := 2100, label := "停利 - 賣出" }]) :=
  ⟨by decide, by norm_num,
    (takeProfit_exit_priority (1/10) (BTState.mk 1000 10 100)
      (BarRow.mk 0 108 115 5 (-1) (-1)) (by decide) (by norm_num)).trans (by norm_num [round2, roundHalfEven])⟩

/-- The price a fired sell trigger uses is either the take-profit price or
the bar close. -/
lemma sellDecision_price (tp : ℚ) (s : BTState) (b : BarRow) (pl : ℚ × String)
    (h : sellDecision tp s b = some pl) :
    pl.1 = s.entry * (1 + tp) ∨ pl.1 = b.close := by
  unfold sellDecision at h
  split_ifs at h <;>
    first
      | exact Option.noConfusion h
      | (injection h with h2; rw [← h2]; simp)

/-- Holding branch preserves well-formedness when the bar close is positive
and the take-profit percentage is nonnegative. -/
lemma sellPhase_good (tp : ℚ) (s : BTState) (b : BarRow)
    (hs : GoodState s) (hc : 0 < b.close) (htp : 0 ≤ tp) :
    GoodState (sellPhase tp s b).1 := by
  obtain ⟨hcash, hsh, hent⟩ := hs
  unfold sellPhase
  by_cases hpos : s.shares > 0
  · rw [if_pos hpos]
    rcases hdec : sellDecision tp s b with _ | pl
    · exact ⟨hcash, hsh, hent⟩
    · have hprice : 0 ≤ pl.1 := by
        rcases sellDecision_price tp s b pl hdec with h | h
        · rw [h]
          have h1 : 0 < s.entry := hent hpos
          have h2 : (0:ℚ) < 1 + tp := by linarith
          positivity
        · rw [h]; exact le_of_lt hc
      refine ⟨?_, le_refl 0, by simp⟩
      have : 0 ≤ pl.1 * (s.shares : ℚ) := by
        apply mul_nonneg hprice
        exact_mod_cast le_of_lt hpos
      simpa using add_nonneg hcash this
  · rw [if_neg hpos]
    exact ⟨hcash, hsh, hent⟩

/-- Flat branch preserves well-formedness when the bar close is positive. -/
lemma buyPhase_good (s : BTState) (b : BarRow)
    (hs : GoodState s) (hc : 0 < b.close) :
    GoodState (buyPhase s b).1 := by
  obtain ⟨hcash, hsh, hent⟩ := hs
  unfold buyPhase
  by_cases h0 : s.shares = 0
  · rw [if_pos h0]
    by_cases hcond : (b.gran = 1 ∨ b.gran = 2 ∨ b.gran = 3 ∨ b.gran = 4) ∧
        (b.cross = 1 ∨ b.brk = 1)
    · rw [if_pos hcond]
      have hdivnn : (0:ℚ) ≤ s.cash / b.close := div_nonneg hcash (le_of_lt hc)
      have hfl : (0:ℤ) ≤ ⌊s.cash / b.close⌋ := Int.floor_nonneg.mpr hdivnn
      by_cases hq : ⌊s.cash / b.close⌋ > 0
      · rw [if_pos hq]
        refine ⟨?_, hfl, fun _ => hc⟩
        have hle : (⌊s.cash / b.close⌋ : ℚ) ≤ s.cash / b.close := Int.floor_le _
        have : b.close * (⌊s.cash / b.close⌋ : ℚ) ≤ b.close * (s.cash / b.close) :=
          mul_le_mul_of_nonneg_left hle (le_of_lt hc)
        rw [mul_div_cancel₀ s.cash (ne_of_gt hc)] at this
        simpa [mul_comm] using sub_nonneg.mpr this
      · rw [if_neg hq]
        exact ⟨hcash, hfl, fun h => absurd h hq⟩
    · rw [if_neg hcond]
      exact ⟨hcash, hsh, hent⟩
  · rw [if_neg h0]
    exact ⟨hcash, hsh, hent⟩

/-- One loop iteration preserves well-formedness. -/
lemma stepBar_good (tp : ℚ) (s : BTState) (b : BarRow)
    (hs : GoodState s) (hc : 0 < b.close) (htp : 0 ≤ tp) :
    GoodState (stepBar tp s b).1 :=
  buyPhase_good _ b (sellPhase_good tp s b hs hc htp) hc

/-- Every state of the trace of a run started in a well-formed state is
well-formed, provided closes are positive and the take-profit percentage
nonnegative. -/
lemma stateTrace_good (tp : ℚ) (bars : List BarRow) (s : BTState)
    (hs : GoodState s) (hc : ∀ b ∈ bars, 0 < b.close) (htp : 0 ≤ tp) :
    ∀ st ∈ stateTrace tp s bars, GoodState st := by
  induction bars generalizing s with
  | nil => intro st hst; simp [stateTrace] at hst
  | cons b rest ih =>
      intro st hst
      have hcb : 0 < b.close := hc b (List.mem_cons_self _ _)
      have hs1 : GoodState (stepBar tp s b).1 := stepBar_good tp s b hs hcb htp
      rcases List.mem_cons.mp hst with h | h
      · rw [h]; exact hs1
      · exact ih (stepBar tp s b).1 hs1 (fun x hx => hc x (List.mem_cons_of_mem _ hx)) st h

/-- A sell that actually produces a record leaves zero shares. -/
lemma sellPhase_record_zero_shares (tp : ℚ) (s : BTState) (b : BarRow)
    (h : (sellPhase tp s b).2 ≠ []) : (sellPhase tp s b).1.shares = 0 := by
  unfold sellPhase at h ⊢
  by_cases hpos : s.shares > 0
  · rw [if_pos hpos] at h ⊢
    rcases hdec : sellDecision tp s b with _ | pl
    · rw [hdec] at h; simp at h
    · rfl
  · rw [if_neg hpos] at h; simp at h

/-- The forced liquidation, when it fires (appending a record), also leaves
zero shares. -/
lemma finalLiquidation_record_zero_shares (s : BTState) (bars : List BarRow)
    (recs : List TradeRecord) (h : (finalLiquidation s bars recs).2 ≠ recs) :
    (finalLiquidation s bars recs).1.shares = 0 := by
  unfold finalLiquidation at h ⊢
  by_cases hpos : s.shares > 0
  · rw [if_pos hpos]
  · rw [if_neg hpos] at h; simp at h

/-- Claim C8: with valid inputs (positive closes, nonnegative take-profit
percentage and initial capital), the state after every processed bar
satisfies `cash + shares*close ≥ 0`, and a SELL (a sell-phase that emits a
record, or a firing forced liquidation) always leaves `shares = 0`. -/
theorem backtest_conservation_law (tp cap : ℚ) (bars : List BarRow)
    (hc : ∀ b ∈ bars, 0 < b.close) (htp : 0 ≤ tp) (hcap : 0 ≤ cap) :
    (∀ p ∈ (stateTrace tp (initState cap) bars).zip bars,
        0 ≤ p.1.cash + (p.1.shares : ℚ) * p.2.close) ∧
    (∀ s b, (sellPhase tp s b).2 ≠ [] → (sellPhase tp s b).1.shares = 0) ∧
    (∀ s recs, (finalLiquidation s bars recs).2 ≠ recs →
        (finalLiquidation s bars recs).1.shares = 0) := by
  refine ⟨?_, fun s b h => sellPhase_record_zero_shares tp s b h,
    fun s recs h => finalLiquidation_record_zero_shares s bars recs h⟩
  intro p hp
  obtain ⟨st, bar⟩ := p
  have hgood : GoodState (initState cap) := ⟨hcap, le_refl 0, by simp [initState]⟩
  obtain ⟨hst, hbar⟩ := List.of_mem_zip hp
  obtain ⟨hcash, hsh, -⟩ := stateTrace_good tp bars (initState cap) hgood hc htp st hst
  have hclose : 0 < bar.close := hc bar hbar
  have : (0:ℚ) ≤ (st.shares : ℚ) * bar.close :=
    mul_nonneg (by exact_mod_cast hsh) (le_of_lt hclose)
  simpa using add_nonneg hcash this

/-- Witness for the conservation law on a concrete two-bar run that buys on
the first bar and holds through the second. -/
theorem backtest_conservation_law_witness :
    (∀ b ∈ [BarRow.mk 0 10 10 1 1 0, BarRow.mk 1 12 12 0 0 0], 0 < b.close) ∧
    (0:ℚ) ≤ 1/10 ∧ (0:ℚ) ≤ 100 ∧
    ((∀ p ∈ (stateTrace (1/10) (initState 100)
          [BarRow.mk 0 10 10 1 1 0, BarRow.mk 1 12 12 0 0 0]).zip
          [BarRow.mk 0 10 10 1 1 0, BarRow.mk 1 12 12 0 0 0],
        0 ≤ p.1.cash + (p.1.shares : ℚ) * p.2.close) ∧
     (∀ s b, (sellPhase (1/10) s b).2 ≠ [] → (sellPhase (1/10) s b).1.shares = 0) ∧
     (∀ s recs,
        (finalLiquidation s [BarRow.mk 0 10 10 1 1 0, BarRow.mk 1 12 12 0 0 0] recs).2 ≠ recs →
        (finalLiquidation s [BarRow.mk 0 10 10 1 1 0, BarRow.mk 1 12 12 0 0 0] recs).1.shares = 0)) :=
  ⟨by decide, by norm_num, by norm_num,
    backtest_conservation_law (1/10) 100 [BarRow.mk 0 10 10 1 1 0, BarRow.mk 1 12 12 0 0 0]
      (by decide) (by norm_num) (by norm_num)⟩

/-- A bar that leaves the simulator holding shares cannot carry a Granville
sell rule: either the holding branch would have sold on it, or the flat
branch bought on it, which requires a buy rule. -/
lemma sellDecision_isSome_of_gran (tp : ℚ) (s : BTState) (b : BarRow)
    (hg : b.gran = 5 ∨ b.gran = 6 ∨ b.gran = 7 ∨ b.gran = 8) :
    sellDecision tp s b ≠ none := by
  unfold sellDecision
  split_ifs with hA hB hC hD <;> simp_all

/-- A bar that leaves the simulator holding shares cannot carry a Granville
sell rule: either the holding branch would have sold on it, or the flat
branch bought on it, which requires a buy rule. -/
lemma stepBar_shares_pos_gran (tp : ℚ) (s : BTState) (b : BarRow)
    (h : 0 < (stepBar tp s b).1.shares) :
    ¬(b.gran = 5 ∨ b.gran = 6 ∨ b.gran = 7 ∨ b.gran = 8) := by
  intro hg
  have hfst : (stepBar tp s b).1 = (buyPhase (sellPhase tp s b).1 b).1 := rfl
  have hs1 : (sellPhase tp s b).1.shares ≤ 0 := by
    by_cases hpos : s.shares > 0
    · rcases hdec : sellDecision tp s b with _ | pl
      · exact absurd hdec (sellDecision_isSome_of_gran tp s b hg)
      · have hz : (sellPhase tp s b).1.shares = 0 := by
          unfold sellPhase
          rw [if_pos hpos, hdec]
        omega
    · have hid : sellPhase tp s b = (s, []) := by
        unfold sellPhase
        rw [if_neg hpos]
      rw [hid]
      exact le_of_not_lt hpos
  by_cases h0 : (sellPhase tp s b).1.shares = 0
  · have hcond : ¬((b.gran = 1 ∨ b.gran = 2 ∨ b.gran = 3 ∨ b.gran = 4) ∧
        (b.cross = 1 ∨ b.brk = 1)) := by
      rintro ⟨hgran, -⟩
      omega
    have hbp : buyPhase (sellPhase tp s b).1 b = ((sellPhase tp s b).1, []) := by
      unfold buyPhase
      rw [if_pos h0, if_neg hcond]
    rw [hfst, hbp] at h
    have h2 : 0 < (sellPhase tp s b).1.shares := h
    omega
  · have hbp : buyPhase (sellPhase tp s b).1 b = ((sellPhase tp s b).1, []) := by
      unfold buyPhase
      rw [if_neg h0]
    rw [hfst, hbp] at h
    have h2 : 0 < (sellPhase tp s b).1.shares := h
    omega

/-- The loop over an appended row list runs the two pieces in sequence. -/
lemma runBars_append (tp : ℚ) (s : BTState) (l1 l2 : List BarRow) :
    runBars tp s (l1 ++ l2) =
      ((runBars tp (runBars tp s l1).1 l2).1,
       (runBars tp s l1).2 ++ (runBars tp (runBars tp s l1).1 l2).2) := by
  induction l1 generalizing s with
  | nil => simp [runBars]
  | cons b rest ih => simp [runBars, ih]

/-- If the whole loop ends still holding, the last bar carries no Granville
sell rule. -/
lemma runBars_shares_pos_last_gran (tp : ℚ) (s : BTState) (bars : List BarRow)
    (hne : bars ≠ []) (h : 0 < (runBars tp s bars).1.shares) :
    ¬((bars.getLastD defaultRow).gran = 5 ∨ (bars.getLastD defaultRow).gran = 6 ∨
      (bars.getLastD defaultRow).gran = 7 ∨ (bars.getLastD defaultRow).gran = 8) := by
  induction bars using List.reverseRecOn with
  | nil => exact absurd rfl hne
  | append_singleton l b ih =>
      rw [runBars_append] at h
      have hstep : (runBars tp (runBars tp s l).1 [b]).1 =
          (stepBar tp (runBars tp s l).1 b).1 := by
        simp [runBars]
      rw [hstep] at h
      have hlast : (l ++ [b]).getLastD defaultRow = b := by
        simp [List.getLastD_eq_getLast?]
      rw [hlast]
      exact stepBar_shares_pos_gran tp (runBars tp s l).1 b h

/-- Value of the firing liquidation block when the last bar carries no
Granville sell rule. -/
lemma finalLiquidation_eq (s : BTState) (bars : List BarRow) (recs : List TradeRecord)
    (hpos : 0 < s.shares)
    (hgran : ¬((bars.getLastD defaultRow).gran = 5 ∨ (bars.getLastD defaultRow).gran = 6 ∨
        (bars.getLastD defaultRow).gran = 7 ∨ (bars.getLastD defaultRow).gran = 8)) :
    finalLiquidation s bars recs =
      ({ cash := s.cash + (bars.getLastD defaultRow).close * (s.shares : ℚ), shares := 0,
         entry := s.entry },
       recs ++
         [{ date := (bars.getLastD defaultRow).date, action := .sell,
            price := round2 (bars.getLastD defaultRow).close, shares := s.shares,
            amount := round2 ((bars.getLastD defaultRow).close * (s.shares : ℚ)),
            cashAfter := round2 (s.cash + (bars.getLastD defaultRow).close * (s.shares : ℚ)),
            profit := round2 (((bars.getLastD defaultRow).close - s.entry) * (s.shares : ℚ)),
            totalAfter := round2 (s.cash + (bars.getLastD defaultRow).close * (s.shares : ℚ)),
            label := "收盤強制 - 賣出" }]) := by
  simp only [finalLiquidation]
  rw [if_pos hpos, if_neg hgran]

/-- Claim C7: a backtest that ends while LONG appends one final SELL record
at the last close with the forced-liquidation label, leaves zero shares,
and only then reduces the ledger to statistics (the trade count is taken
over the liquidated ledger and the final value already contains the
proceeds). -/
theorem end_of_series_forced_liquidation (tp cap : ℚ) (bars : List BarRow)
    (hne : bars ≠ [])
    (hlong : 0 < (runBars tp (initState cap) bars).1.shares) :
    (backtestSingleStockEnhanced bars tp cap).finalShares = 0 ∧
    (backtestSingleStockEnhanced bars tp cap).ledger =
      (runBars tp (initState cap) bars).2 ++
        [{ date := (bars.getLastD defaultRow).date, action := .sell,
           price := round2 (bars.getLastD defaultRow).close,
           shares := (runBars tp (initState cap) bars).1.shares,
           amount := round2 ((bars.getLastD defaultRow).close *
             ((runBars tp (initState cap) bars).1.shares : ℚ)),
           cashAfter := round2 ((runBars tp (initState cap) bars).1.cash +
             (bars.getLastD defaultRow).close *
             ((runBars tp (initState cap) bars).1.shares : ℚ)),
           profit := round2 (((bars.getLastD defaultRow).close -
             (runBars tp (initState cap) bars).1.entry) *
             ((runBars tp (initState cap) bars).1.shares : ℚ)),
           totalAfter := round2 ((runBars tp (initState cap) bars).1.cash +
             (bars.getLastD defaultRow).close *
             ((runBars tp (initState cap) bars).1.shares : ℚ)),
           label := "收盤強制 - 賣出" }] ∧
    (backtestSingleStockEnhanced bars tp cap).totalTrades =
      (sellRecords (backtestSingleStockEnhanced bars tp cap).ledger).length ∧
    (backtestSingleStockEnhanced bars tp cap).finalValue =
      (runBars tp (initState cap) bars).1.cash +
        (bars.getLastD defaultRow).close * ((runBars tp (initState cap) bars).1.shares : ℚ) := by
  have hgran := runBars_shares_pos_last_gran tp (initState cap) bars hne hlong
  have hfin := finalLiquidation_eq (runBars tp (initState cap) bars).1 bars
    (runBars tp (initState cap) bars).2 hlong hgran
  refine ⟨?_, ?_, ?_, ?_⟩
  · simp only [backtestSingleStockEnhanced]
    rw [hfin]
  · simp only [backtestSingleStockEnhanced]
    rw [hfin]
  · rfl
  · simp only [backtestSingleStockEnhanced]
    rw [hfin]

/-- Witness for the forced liquidation: a two-bar run that buys on the
first bar and is never sold during the loop ends with a forced SELL at the
final close and zero shares. -/
theorem end_of_series_forced_liquidation_witness :
    ([BarRow.mk 0 10 10 1 1 0, BarRow.mk 1 12 12 0 0 0] ≠ ([] : List BarRow)) ∧
    0 < (runBars 1 (initState 100) [BarRow.mk 0 10 10 1 1 0, BarRow.mk 1 12 12 0 0 0]).1.shares ∧
    (backtestSingleStockEnhanced [BarRow.mk 0 10 10 1 1 0, BarRow.mk 1 12 12 0 0 0] 1 100).finalShares = 0 ∧
    (backtestSingleStockEnhanced [BarRow.mk 0 10 10 1 1 0, BarRow.mk 1 12 12 0 0 0] 1 100).ledger =
      [{ date := 0, action := .buy, price := 10, shares := 10, amount := 100,
         cashAfter := 0, profit := 0, totalAfter := 100,
         label := ruleDescription 1 },
       { date := 1, action := .sell, price := 12, shares := 10, amount := 120,
         cashAfter := 120, profit := 20, totalAfter := 120,
         label := "收盤強制 - 賣出" }] ∧
    (backtestSingleStockEnhanced [BarRow.mk 0 10 10 1 1 0, BarRow.mk 1 12 12 0 0 0] 1 100).finalValue = 120 := by
  have hrun : runBars 1 (initState 100) [BarRow.mk 0 10 10 1 1 0, BarRow.mk 1 12 12 0 0 0] =
      ({ cash := 0, shares := 10, entry := 10 },
       [{ date := 0, action := .buy, price := 10, shares := 10, amount := 100,
          cashAfter := 0, profit := 0, totalAfter := 100, label := ruleDescription 1 }]) := by
    norm_num [runBars, stepBar, sellPhase, buyPhase, sellDecision, initState,
      round2, roundHalfEven, Int.fract]
  have hlong : 0 < (runBars 1 (initState 100)
      [BarRow.mk 0 10 10 1 1 0, BarRow.mk 1 12 12 0 0 0]).1.shares := by
    rw [hrun]
    decide
  have h := end_of_series_forced_liquidation 1 100
    [BarRow.mk 0 10 10 1 1 0, BarRow.mk 1 12 12 0 0 0] (by decide) hlong
  refine ⟨by decide, hlong, h.1, ?_, ?_⟩
  · rw [h.2.1, hrun]
    norm_num [round2, roundHalfEven, Int.fract, List.getLastD, ruleDescription]
  · rw [h.2.2.2, hrun]
    norm_num [List.getLastD]

/-- Sample variance is nonnegative for more than one observation. -/
lemma sampleVar_nonneg (xs : List ℚ) (h : 1 < xs.length) : 0 ≤ sampleVar xs := by
  unfold sampleVar
  apply div_nonneg
  · apply List.sum_nonneg
    intro x hx
    simp only [List.mem_map] at hx
    obtain ⟨y, -, rfl⟩ := hx
    positivity
  · have h2 : (1:ℚ) < (xs.length : ℚ) := by exact_mod_cast h
    linarith

/-- Claim C10: the analyzer computes each SELL trade return ratio as
`profit / (trade_value - profit)` and the Sharpe-like ratio as
`mean / stddev * sqrt(n)` exactly when `n > 1` and the standard deviation
is nonzero, else 0.0. The hypothesis keeps every reconstructed cost basis
nonzero, the domain on which the rational embedding matches the float
division of the source (whose quotient is infinite or NaN there). -/
theorem performance_return_ratio_and_sharpe (l : List TradeRecord)
    (hnz : ∀ r ∈ sellRecords l, r.amount - r.profit ≠ 0) :
    returnRatios l = (sellRecords l).map (fun r => specReturnRatio r.profit r.amount) ∧
    sharpeRatioOf l = specSharpeRatio (returnRatios l) := by
  refine ⟨rfl, ?_⟩
  have hiff : (1 < (returnRatios l).length ∧ sampleStd (returnRatios l) ≠ 0) ↔
      (1 < (returnRatios l).length ∧ sampleVar (returnRatios l) ≠ 0) := by
    apply and_congr_right
    intro h1
    rw [not_iff_not]
    unfold sampleStd
    constructor
    · intro hs
      have hle : ((sampleVar (returnRatios l) : ℚ) : ℝ) ≤ 0 := Real.sqrt_eq_zero'.mp hs
      have hv : 0 ≤ sampleVar (returnRatios l) := sampleVar_nonneg _ h1
      have : ((sampleVar (returnRatios l) : ℚ) : ℝ) = 0 :=
        le_antisymm hle (by exact_mod_cast hv)
      exact_mod_cast this
    · intro hv
      rw [hv]
      push_cast
      exact Real.sqrt_zero
  unfold sharpeRatioOf specSharpeRatio sampleStd
  simp only [sampleStd] at hiff
  simp only [hiff]

/-- Witness for the performance formulas on a concrete two-trade ledger. -/
theorem performance_return_ratio_and_sharpe_witness :
    (∀ r ∈ sellRecords
        [TradeRecord.mk 0 .sell 11 10 110 210 10 210 "a",
         TradeRecord.mk 1 .sell 9 10 95 305 (-5) 305 "b"],
      r.amount - r.profit ≠ 0) ∧
    (returnRatios
        [TradeRecord.mk 0 .sell 11 10 110 210 10 210 "a",
         TradeRecord.mk 1 .sell 9 10 95 305 (-5) 305 "b"] =
      (sellRecords
        [TradeRecord.mk 0 .sell 11 10 110 210 10 210 "a",
         TradeRecord.mk 1 .sell 9 10 95 305 (-5) 305 "b"]).map
        (fun r => specReturnRatio r.profit r.amount) ∧
     sharpeRatioOf
        [TradeRecord.mk 0 .sell 11 10 110 210 10 210 "a",
         TradeRecord.mk 1 .sell 9 10 95 305 (-5) 305 "b"] =
      specSharpeRatio (returnRatios
        [TradeRecord.mk 0 .sell 11 10 110 210 10 210 "a",
         TradeRecord.mk 1 .sell 9 10 95 305 (-5) 305 "b"])) :=
  ⟨by norm_num [sellRecords],
   performance_return_ratio_and_sharpe _ (by norm_num [sellRecords])⟩

end Backtest

namespace SignalProcessor

open Granville

/-- Claim C4 counterexample: with the default windows, the empty input has
fewer bars than `max(ma_period, volume_period)`, yet the indicator
computation fails with the empty-input error, not with the
insufficient-data error the claim requires for every short input. -/
theorem insufficient_data_error_counterexample :
    ([] : List Bar).length < max 20 5 ∧
    calculateIndicators [] 20 5 = Except.error SigErr.emptyInput ∧
    calculateIndicators [] 20 5 ≠ Except.error (SigErr.insufficientData (max 20 5)) := by
  refine ⟨by decide, rfl, ?_⟩
  simp [calculateIndicators]

/-- Claim C4 (amended): the indicator computation fails with the
InsufficientData error exactly when the input is nonempty and shorter than
`max(ma_period, volume_period)`; the empty input fails with the distinct
empty-input validation error instead, and with at least that many bars
neither error is raised. -/
theorem insufficient_data_error_iff (bars : List Bar) (maWindow volWindow : ℕ) :
    calculateIndicators bars maWindow volWindow =
        Except.error (SigErr.insufficientData (max maWindow volWindow)) ↔
      (0 < bars.length ∧ bars.length < max maWindow volWindow) := by
  unfold calculateIndicators
  by_cases h0 : bars = []
  · subst h0
    simp
  · rw [if_neg h0]
    by_cases h1 : bars.length < max maWindow volWindow
    · rw [if_pos h1]
      simp [h1, List.length_pos.mpr h0]
    · rw [if_neg h1]
      simp [h1]

/-- Claim C5 counterexample: an unexpected failure while deriving
indicators (here: empty input) is propagated by `generate_signals` as a
generation-failed error, not recovered into an empty signal list. -/
theorem signal_error_recovery_counterexample :
    generateSignals [] {} =
      Except.error (SigErr.generationFailed SigErr.emptyInput) ∧
    generateSignals [] {} ≠ Except.ok [] := by
  refine ⟨rfl, ?_⟩
  simp [generateSignals, calculateIndicators]

/-- Claim C5 (amended): a failure inside the rule-classification stage is
recovered locally into an empty signal list, but a failure of the
indicator-derivation stage propagates out of `generate_signals`, wrapped
in the generation-failed error. -/
theorem signal_error_recovery_amended :
    (∀ e : SigErr, applyGranvilleRulesHandler (Except.error e) = []) ∧
    (∀ (bars : List Bar) (cfg : SignalConfig) (e : SigErr),
      calculateIndicators bars cfg.maPeriod cfg.volumePeriod = Except.error e →
      generateSignals bars cfg = Except.error (SigErr.generationFailed e)) := by
  constructor
  · intro e
    rfl
  · intro bars cfg e h
    unfold generateSignals
    rw [h]

/-- Witness for the amended error-propagation claim at the empty input. -/
theorem signal_error_recovery_amended_witness :
    applyGranvilleRulesHandler (Except.error SigErr.emptyInput) = [] ∧
    calculateIndicators ([] : List Bar) 20 5 = Except.error SigErr.emptyInput ∧
    generateSignals [] {} = Except.error (SigErr.generationFailed SigErr.emptyInput) :=
  ⟨signal_error_recovery_amended.1 SigErr.emptyInput, rfl,
   signal_error_recovery_amended.2 [] {} SigErr.emptyInput rfl⟩

/-- Clamping into the unit interval commutes either way round. -/
lemma clamp_comm (x : ℚ) : max 0 (min 1 x) = min 1 (max 0 x) := by
  simp only [min_def, max_def]
  split_ifs <;> linarith

/-- Claim C9: at any in-range position, the fired-rule confidence equals
the spec formula: base 0.6, plus 0.2 for volume ratio above 1.5 or 0.1
above 1.2, plus `min(0.2, |ma_slope|*10)`, plus
`min(0.1, |price_change_3d|*5)`, clamped to `[0, 1]`; a missing (NaN)
indicator contributes 0 instead of raising. -/
theorem confidence_matches_spec (f : IndicatorFrame) (ruleNumber position : ℕ)
    (h : position < f.bars.length) :
    calculateSignalConfidence f ruleNumber position =
      specConfidence (f.volumeRatio position) (f.maSlope position)
        (f.priceChange3d position) := by
  unfold calculateSignalConfidence specConfidence
  simp only [if_pos h]
  exact clamp_comm _

/-- Witness for the confidence formula at a concrete frame whose volume
ratio is 2, MA slope 0.01 and 3-bar change 0.02 at position 0. -/
theorem confidence_matches_spec_witness :
    0 < (IndicatorFrame.mk [Bar.mk 0 10 100] (fun _ => none) (fun _ => none)
        (fun _ => some (1/100)) (fun _ => none) (fun _ => some 2) (fun _ => none)
        (fun _ => some (1/50))).bars.length ∧
    calculateSignalConfidence
        (IndicatorFrame.mk [Bar.mk 0 10 100] (fun _ => none) (fun _ => none)
          (fun _ => some (1/100)) (fun _ => none) (fun _ => some 2) (fun _ => none)
          (fun _ => some (1/50))) 1 0 =
      specConfidence
        ((IndicatorFrame.mk [Bar.mk 0 10 100] (fun _ => none) (fun _ => none)
          (fun _ => some (1/100)) (fun _ => none) (fun _ => some 2) (fun _ => none)
          (fun _ => some (1/50))).volumeRatio 0)
        ((IndicatorFrame.mk [Bar.mk 0 10 100] (fun _ => none) (fun _ => none)
          (fun _ => some (1/100)) (fun _ => none) (fun _ => some 2) (fun _ => none)
          (fun _ => some (1/50))).maSlope 0)
        ((IndicatorFrame.mk [Bar.mk 0 10 100] (fun _ => none) (fun _ => none)
          (fun _ => some (1/100)) (fun _ => none) (fun _ => some 2) (fun _ => none)
          (fun _ => some (1/50))).priceChange3d 0) :=
  ⟨by decide,
   confidence_matches_spec
     (IndicatorFrame.mk [Bar.mk 0 10 100] (fun _ => none) (fun _ => none)
       (fun _ => some (1/100)) (fun _ => none) (fun _ => some 2) (fun _ => none)
       (fun _ => some (1/50))) 1 0 (by decide)⟩

/-- In a strictly increasing list, the last element bounds every member. -/
lemma le_getLast?_of_pairwise_lt {l : List ℕ} {a : ℕ}
    (hp : l.Pairwise (· < ·)) (hl : l.getLast? = some a) : ∀ x ∈ l, x ≤ a := by
  induction l with
  | nil => simp at hl
  | cons b t ih =>
      rcases t with _ | ⟨c, t2⟩
      · simp at hl
        subst hl
        intro x hx
        simp at hx
        omega
      · rw [List.getLast?_cons_cons] at hl
        obtain ⟨hb, hp2⟩ := List.pairwise_cons.mp hp
        intro x hx
        rcases List.mem_cons.mp hx with rfl | hx2
        · exact le_of_lt (hb a (List.mem_of_getLast?_eq_some hl))
        · exact ih hp2 hl x hx2

/-- The rule-extraction step yields either no signal (when no bar has a
nonzero code) or exactly the signal of the most recent nonzero bar. -/
lemma applyGranvilleRulesFn_characterization (f : IndicatorFrame) (cfg : SignalConfig) :
    (applyGranvilleRulesFn f cfg = [] ∧
      ∀ i < f.bars.length, granvilleSignals (pipelineRuleInput f cfg) i = 0) ∨
    (∃ i < f.bars.length,
      granvilleSignals (pipelineRuleInput f cfg) i ≠ 0 ∧
      (∀ j, i < j → j < f.bars.length → granvilleSignals (pipelineRuleInput f cfg) j = 0) ∧
      applyGranvilleRulesFn f cfg = [mkLatestSignal f cfg i]) := by
  simp only [applyGranvilleRulesFn, applyGranvilleRulesBody, applyGranvilleRulesHandler]
  rcases hlast : ((List.range f.bars.length).filter
      (fun i => granvilleSignals (pipelineRuleInput f cfg) i ≠ 0)).getLast? with _ | i
  · left
    have hnil := List.getLast?_eq_none_iff.mp hlast
    refine ⟨rfl, fun i hi => ?_⟩
    by_contra hne
    have hmem : i ∈ (List.range f.bars.length).filter
        (fun i => granvilleSignals (pipelineRuleInput f cfg) i ≠ 0) :=
      List.mem_filter.mpr ⟨List.mem_range.mpr hi, by simpa using hne⟩
    rw [hnil] at hmem
    simp at hmem
  · right
    have hmem := List.mem_of_getLast?_eq_some hlast
    obtain ⟨hrange, hnz⟩ := List.mem_filter.mp hmem
    refine ⟨i, List.mem_range.mp hrange, by simpa using hnz, ?_, rfl⟩
    intro j hij hj
    by_contra hne
    have hjmem : j ∈ (List.range f.bars.length).filter
        (fun i => granvilleSignals (pipelineRuleInput f cfg) i ≠ 0) :=
      List.mem_filter.mpr ⟨List.mem_range.mpr hj, by simpa using hne⟩
    have hle := le_getLast?_of_pairwise_lt
      ((List.pairwise_lt_range f.bars.length).filter _) hlast j hjmem
    omega

/-- Sorting a one-element signal list is the identity. -/
lemma sortSignals_singleton (s : Signal) : sortSignals [s] = [s] :=
  List.perm_singleton.mp (List.mergeSort_perm [s] _)

/-- Filtering a one-element signal list is the identity. -/
lemma filterSignals_singleton (s : Signal) (w : ℚ) : filterSignals [s] w = [s] := by
  unfold filterSignals
  rw [if_neg (by simp), sortSignals_singleton]
  simp [filterWalk]

/-- Claim C3: a successful `generate_signals` returns at most one signal;
when indicators were computed, the output is empty exactly when no bar has
a nonzero rule code, and any returned signal is the one built from the most
recent bar with a nonzero code (every earlier firing bar contributes no
signal). -/
theorem generate_signals_at_most_one (bars : List Bar) (cfg : SignalConfig)
    (out : List Signal) (h : generateSignals bars cfg = Except.ok out) :
    out.length ≤ 1 ∧
    ∀ f, calculateIndicators bars cfg.maPeriod cfg.volumePeriod = Except.ok f →
      ((out = [] ↔ ∀ i < f.bars.length, granvilleSignals (pipelineRuleInput f cfg) i = 0) ∧
       ∀ s ∈ out, ∃ i, i < f.bars.length ∧
         granvilleSignals (pipelineRuleInput f cfg) i ≠ 0 ∧
         (∀ j, i < j → j < f.bars.length →
           granvilleSignals (pipelineRuleInput f cfg) j = 0) ∧
         s = mkLatestSignal f cfg i) := by
  unfold generateSignals at h
  rcases hcalc : calculateIndicators bars cfg.maPeriod cfg.volumePeriod with e | f0
  · rw [hcalc] at h
    exact Except.noConfusion h
  · rw [hcalc] at h
    have hout : out = if cfg.enableSignalFilter then
        filterSignals (applyGranvilleRulesFn f0 cfg) 5 else applyGranvilleRulesFn f0 cfg := by
      injection h with h2
      exact h2.symm
    rcases applyGranvilleRulesFn_characterization f0 cfg with ⟨hfn, hall⟩ | ⟨i, hi, hnz, hmax, hfn⟩
    · have hout2 : out = [] := by
        rw [hout, hfn]
        cases cfg.enableSignalFilter <;> simp [filterSignals]
      constructor
      · rw [hout2]
        simp
      · intro f hf
        injection hf with hf2
        subst hf2
        refine ⟨⟨fun _ => hall, fun _ => hout2⟩, ?_⟩
        intro s hs
        rw [hout2] at hs
        simp at hs
    · have hout2 : out = [mkLatestSignal f0 cfg i] := by
        rw [hout, hfn]
        cases cfg.enableSignalFilter <;> simp [filterSignals_singleton]
      constructor
      · rw [hout2]
        simp
      · intro f hf
        injection hf with hf2
        subst hf2
        constructor
        · rw [hout2]
          constructor
          · intro hcontr
            exact absurd hcontr (by simp)
          · intro hzero
            exact absurd (hzero i hi) hnz
        · intro s hs
          rw [hout2] at hs
          simp at hs
          exact ⟨i, hi, hnz, hmax, hs⟩

/-- Witness for the at-most-one-signal property on a concrete one-bar
series with one-bar windows (the run succeeds with an empty result). -/
theorem generate_signals_at_most_one_witness :
    generateSignals [Bar.mk 0 10 100] { maPeriod := 1, volumePeriod := 1 } =
      Except.ok [] ∧
    ([] : List Signal).length ≤ 1 := by
  have hrun : generateSignals [Bar.mk 0 10 100] { maPeriod := 1, volumePeriod := 1 } =
      Except.ok [] := by
    with_unfolding_all rfl
  exact ⟨hrun, (generate_signals_at_most_one _ _ [] hrun).1⟩

/-- The walk over an appended list processes the two pieces in sequence:
the signals accepted before any element of the second piece is examined
are exactly the result of walking the first piece. -/
lemma filterWalk_append (w : ℚ) (l1 l2 acc : List Signal) :
    filterWalk w acc (l1 ++ l2) = filterWalk w (filterWalk w acc l1) l2 := by
  induction l1 generalizing acc with
  | nil => simp [filterWalk]
  | cons s rest ih =>
      by_cases hdup : acc.any (signalDup w s) = true
      · simp [filterWalk, hdup, ih]
      · simp [filterWalk, hdup, ih]

/-- The deduplicating walk appends a sublist of its input to the
accumulator, and every newly accepted signal was checked against the whole
accumulator: it duplicates none of the signals accepted before it. -/
lemma filterWalk_decomposition (w : ℚ) :
    ∀ (l acc : List Signal), ∃ l2, filterWalk w acc l = acc ++ l2 ∧ l2.Sublist l ∧
      ∀ x ∈ l2, ∀ e ∈ acc, signalDup w x e = false := by
  intro l
  induction l with
  | nil =>
      intro acc
      exact ⟨[], by simp [filterWalk], List.Sublist.refl _, by simp⟩
  | cons s rest ih =>
      intro acc
      unfold filterWalk
      by_cases hdup : acc.any (signalDup w s) = true
      · rw [if_pos hdup]
        obtain ⟨l2, h1, h2, h3⟩ := ih acc
        exact ⟨l2, h1, h2.cons s, h3⟩
      · rw [if_neg hdup]
        obtain ⟨l2, h1, h2, h3⟩ := ih (acc ++ [s])
        refine ⟨s :: l2, by rw [h1]; simp, h2.cons₂ s, ?_⟩
        intro x hx e he
        rcases List.mem_cons.mp hx with rfl | hx2
        · have h4 : acc.any (signalDup w x) = false := by
            rwa [Bool.not_eq_true] at hdup
          rw [Bool.eq_false_iff]
          exact (List.any_eq_false.mp h4) e he
        · exact h3 x hx2 e (List.mem_append_left _ he)

/-- The walk keeps the accepted list free of pairs that duplicate each
other: a later accepted signal never lies within the window of an earlier
accepted one for the same stock and rule. -/
lemma filterWalk_pairwise (w : ℚ) :
    ∀ (l acc : List Signal),
      acc.Pairwise (fun a b => signalDup w b a = false) →
      (filterWalk w acc l).Pairwise (fun a b => signalDup w b a = false) := by
  intro l
  induction l with
  | nil =>
      intro acc h
      simpa [filterWalk] using h
  | cons s rest ih =>
      intro acc hacc
      unfold filterWalk
      by_cases hdup : acc.any (signalDup w s) = true
      · rw [if_pos hdup]
        exact ih acc hacc
      · rw [if_neg hdup]
        apply ih
        rw [List.pairwise_append]
        refine ⟨hacc, by simp, ?_⟩
        intro a ha b hb
        simp only [List.mem_singleton] at hb
        subst hb
        have h2 : acc.any (signalDup w b) = false := by
          rwa [Bool.not_eq_true] at hdup
        rw [Bool.eq_false_iff]
        exact (List.any_eq_false.mp h2) a ha

/-- The stable sort of the signals is sorted by timestamp. -/
lemma sortSignals_sorted (sigs : List Signal) :
    (sortSignals sigs).Pairwise (fun a b => a.timestamp ≤ b.timestamp) := by
  unfold sortSignals
  refine List.Pairwise.imp ?_ (List.sorted_mergeSort ?_ ?_ sigs)
  · intro a b hab
    exact of_decide_eq_true hab
  · intro a b c hab hbc
    simp only [decide_eq_true_eq] at hab hbc ⊢
    exact le_trans hab hbc
  · intro a b
    rcases le_total a.timestamp b.timestamp with h | h <;> simp [h]

/-- Claim C6: the deduplication filter returns a sublist of the
timestamp-sorted input in ascending timestamp order; any two surviving
signals for the same instrument and rule are at least the window apart;
and, position by position along the sorted list, a signal appears in the
output right after the signals accepted before it if and only if no
earlier-accepted signal duplicates it (same stock, same rule, within the
window) — in particular a signal with no earlier-accepted duplicate (the
first occurrence of its group) is always retained. -/
theorem filter_signals_dedup (sigs : List Signal) (w : ℚ) :
    (filterSignals sigs w).Sublist (sortSignals sigs) ∧
    (filterSignals sigs w).Pairwise (fun a b => a.timestamp ≤ b.timestamp) ∧
    (filterSignals sigs w).Pairwise (fun a b => a.stockCode = b.stockCode →
      a.ruleNumber = b.ruleNumber → w ≤ |b.timestamp - a.timestamp|) ∧
    (∀ l1 s l2, sortSignals sigs = l1 ++ s :: l2 →
      ((∃ rest, filterSignals sigs w = filterWalk w [] l1 ++ s :: rest) ↔
        ∀ e ∈ filterWalk w [] l1, signalDup w s e = false)) ∧
    (∀ l1 s l2, sortSignals sigs = l1 ++ s :: l2 →
      (∀ e ∈ filterWalk w [] l1, signalDup w s e = false) →
      s ∈ filterSignals sigs w) := by
  by_cases hnil : sigs = []
  · subst hnil
    refine ⟨by simp [filterSignals], by simp [filterSignals],
      by simp [filterSignals], ?_, ?_⟩
    · intro l1 s l2 hsort
      rw [show sortSignals [] = [] from List.mergeSort_nil] at hsort
      exact absurd hsort (by simp)
    · intro l1 s l2 hsort
      rw [show sortSignals [] = [] from List.mergeSort_nil] at hsort
      exact absurd hsort (by simp)
  · have hfs : filterSignals sigs w = filterWalk w [] (sortSignals sigs) := by
      unfold filterSignals
      rw [if_neg hnil]
    obtain ⟨l0, hdec, hsub, -⟩ := filterWalk_decomposition w (sortSignals sigs) []
    have h0 : filterWalk w [] (sortSignals sigs) = l0 := by simpa using hdec
    refine ⟨?_, ?_, ?_, ?_, ?_⟩
    · rw [hfs, h0]
      exact hsub
    · exact (sortSignals_sorted sigs).sublist (by rw [hfs, h0]; exact hsub)
    · rw [hfs]
      refine (filterWalk_pairwise w (sortSignals sigs) [] (by simp)).imp ?_
      intro a b h hst hrn
      by_contra hnle
      have hlt : |b.timestamp - a.timestamp| < w := lt_of_not_le hnle
      have htrue : signalDup w b a = true := by
        simp [signalDup, hst.symm, hrn.symm, hlt]
      rw [h] at htrue
      exact Bool.noConfusion htrue
    · intro l1 s l2 hsort
      rw [hfs, hsort, filterWalk_append]
      constructor
      · rintro ⟨rest, hrest⟩ e he
        cases hval : signalDup w s e with
        | false => rfl
        | true =>
            exfalso
            have hdup : (filterWalk w [] l1).any (signalDup w s) = true :=
              List.any_eq_true.mpr ⟨e, he, hval⟩
            have hstep : filterWalk w (filterWalk w [] l1) (s :: l2) =
                filterWalk w (filterWalk w [] l1) l2 := by
              conv_lhs => rw [filterWalk]
              rw [if_pos hdup]
            rw [hstep] at hrest
            obtain ⟨l2p, hd2, -, hno⟩ :=
              filterWalk_decomposition w l2 (filterWalk w [] l1)
            rw [hd2] at hrest
            have hl2p := List.append_cancel_left hrest
            have hs_mem : s ∈ l2p := by
              rw [hl2p]
              exact List.mem_cons_self _ _
            have hfalse := hno s hs_mem e he
            rw [hval] at hfalse
            exact Bool.noConfusion hfalse
      · intro hall
        have hdup : ¬ (filterWalk w [] l1).any (signalDup w s) = true := by
          intro hc
          obtain ⟨e, he, hd⟩ := List.any_eq_true.mp hc
          rw [hall e he] at hd
          exact Bool.noConfusion hd
        have hstep : filterWalk w (filterWalk w [] l1) (s :: l2) =
            filterWalk w (filterWalk w [] l1 ++ [s]) l2 := by
          conv_lhs => rw [filterWalk]
          rw [if_neg hdup]
        obtain ⟨l2p, hd2, -, -⟩ :=
          filterWalk_decomposition w l2 (filterWalk w [] l1 ++ [s])
        refine ⟨l2p, ?_⟩
        rw [hstep, hd2]
        simp
    · intro l1 s l2 hsort hall
      rw [hfs, hsort, filterWalk_append]
      have hdup : ¬ (filterWalk w [] l1).any (signalDup w s) = true := by
        intro hc
        obtain ⟨e, he, hd⟩ := List.any_eq_true.mp hc
        rw [hall e he] at hd
        exact Bool.noConfusion hd
      have hstep : filterWalk w (filterWalk w [] l1) (s :: l2) =
          filterWalk w (filterWalk w [] l1 ++ [s]) l2 := by
        conv_lhs => rw [filterWalk]
        rw [if_neg hdup]
      obtain ⟨l2p, hd2, -, -⟩ :=
        filterWalk_decomposition w l2 (filterWalk w [] l1 ++ [s])
      rw [hstep, hd2]
      simp

/-- Witness for the deduplication filter on three same-stock same-rule
signals at minutes 0, 10 and 12 under the 5-minute window: the signal at
minute 10 starts a new group (no earlier-accepted duplicate) and is
retained, while the signal at minute 12 duplicates it and is dropped, so
the filter returns the signals at minutes 0 and 10. -/
theorem filter_signals_dedup_witness :
    sortSignals
        [Signal.mk "A" 1 "BUY" 0 100 1, Signal.mk "A" 1 "BUY" 10 100 1,
         Signal.mk "A" 1 "BUY" 12 100 1] =
      [Signal.mk "A" 1 "BUY" 0 100 1] ++ Signal.mk "A" 1 "BUY" 10 100 1 ::
        [Signal.mk "A" 1 "BUY" 12 100 1] ∧
    (∀ e ∈ filterWalk 5 [] [Signal.mk "A" 1 "BUY" 0 100 1],
      signalDup 5 (Signal.mk "A" 1 "BUY" 10 100 1) e = false) ∧
    Signal.mk "A" 1 "BUY" 10 100 1 ∈
      filterSignals
        [Signal.mk "A" 1 "BUY" 0 100 1, Signal.mk "A" 1 "BUY" 10 100 1,
         Signal.mk "A" 1 "BUY" 12 100 1] 5 ∧
    filterSignals
        [Signal.mk "A" 1 "BUY" 0 100 1, Signal.mk "A" 1 "BUY" 10 100 1,
         Signal.mk "A" 1 "BUY" 12 100 1] 5 =
      [Signal.mk "A" 1 "BUY" 0 100 1, Signal.mk "A" 1 "BUY" 10 100 1] := by
  have hsort : sortSignals
      [Signal.mk "A" 1 "BUY" 0 100 1, Signal.mk "A" 1 "BUY" 10 100 1,
       Signal.mk "A" 1 "BUY" 12 100 1] =
      [Signal.mk "A" 1 "BUY" 0 100 1] ++ Signal.mk "A" 1 "BUY" 10 100 1 ::
        [Signal.mk "A" 1 "BUY" 12 100 1] :=
    List.mergeSort_of_sorted (by decide)
  refine ⟨hsort, by with_unfolding_all decide, ?_, by with_unfolding_all decide⟩
  exact (filter_signals_dedup
      [Signal.mk "A" 1 "BUY" 0 100 1, Signal.mk "A" 1 "BUY" 10 100 1,
       Signal.mk "A" 1 "BUY" 12 100 1] 5).2.2.2.2
    [Signal.mk "A" 1 "BUY" 0 100 1] (Signal.mk "A" 1 "BUY" 10 100 1)
    [Signal.mk "A" 1 "BUY" 12 100 1] hsort (by with_unfolding_all decide)

end SignalProcessor
